import Mathlib

/-!
Verification of the sht30-python driver stack: a shallow embedding of the
SHT30 sensor driver (`sht30/sht30.py`) and the SC18IM700 serial-to-I2C
bridge driver (`sc18im700/sc18im700.py`), with theorems settling the
frozen claims C1..C10 about the code.

Python integers are unbounded, so machine values are embedded as `Nat`
(or `Int` where the source admits negative inputs); Python `float`
arithmetic in the unit conversions and baud-rate computation is embedded
as exact rational arithmetic over `ℚ`.  Fallible operations (Python
`raise`) are embedded as `Except Unit _` or `Option`; transport
transmissions are embedded as explicit byte-list frames.
-/

namespace SHT30

/-- `int.from_bytes(_, byteorder='big')`: big-endian byte-list decoding. -/
def from_bytes_be (data : List Nat) : Nat :=
  data.foldl (fun acc b => 256 * acc + b) 0

/-- One iteration of the inner loop of `SHT30.crc8`:
`crc <<= 1` then `crc ^= POLYNOMIAL` when bit 7 was set, else `crc <<= 1`.
As in the Python source, no mask is applied here: the running value may
grow beyond 8 bits and is only masked at the very end of `crc8`. -/
def crcStep (crc : Nat) : Nat :=
  if crc &&& 0x80 ≠ 0 then (crc <<< 1) ^^^ 0x31 else crc <<< 1

/-- `for _ in range(8)` of `SHT30.crc8`, generalized to `n` iterations. -/
def crcRounds : Nat → Nat → Nat
  | 0, crc => crc
  | n + 1, crc => crcRounds n (crcStep crc)

/-- `SHT30.crc8`: initial value `0xFF`, per input byte XOR then 8 shift/XOR
rounds with polynomial `0x31`, and a single final mask `crc & 0xFF`. -/
def crc8 (data : List Nat) : Nat :=
  (data.foldl (fun crc d => crcRounds 8 (crc ^^^ d)) 0xFF) &&& 0xFF

/-- The spec's description of one CRC round, with the running value
masked to 8 bits: the standard MSB-first CRC-8 step for polynomial
`0x31`.  Used as the comparison point for claim C1. -/
def crcStepM (crc : Nat) : Nat :=
  (if crc &&& 0x80 ≠ 0 then (crc <<< 1) ^^^ 0x31 else crc <<< 1) &&& 0xFF

/-- `n` masked CRC rounds. -/
def crcRoundsM : Nat → Nat → Nat
  | 0, crc => crc
  | n + 1, crc => crcRoundsM n (crcStepM crc)

/-- The spec's CRC-8: polynomial `0x31`, initial value `0xFF`, no
reflection, no final XOR, running value kept to 8 bits. -/
def crc8_spec (data : List Nat) : Nat :=
  data.foldl (fun crc d => crcRoundsM 8 (crc ^^^ d)) 0xFF

/-- The checksum-validation and decoding part of `SHT30.read_status`,
applied to the 3-byte response read from the bridge: raise on CRC
mismatch over the first two bytes, otherwise decode them big-endian. -/
def read_status (rdata : List Nat) : Except Unit Nat :=
  if crc8 (rdata.take 2) ≠ rdata.getD 2 0 then .error ()
  else .ok (from_bytes_be (rdata.take 2))

/-- `SHT30.is_alerting`: `bool(status & 0x8000)`. -/
def is_alerting (status : Nat) : Bool := status &&& 0x8000 != 0

/-- `SHT30.heater_enabled`: `bool(status & 0x2000)`. -/
def heater_enabled (status : Nat) : Bool := status &&& 0x2000 != 0

/-- `SHT30.is_humi_alerting`: `bool(status & 0x0800)`. -/
def is_humi_alerting (status : Nat) : Bool := status &&& 0x0800 != 0

/-- `SHT30.is_temp_alerting`: `bool(status & 0x0400)`. -/
def is_temp_alerting (status : Nat) : Bool := status &&& 0x0400 != 0

/-- `SHT30.is_reset_detected`: `bool(status & 0x0010)`. -/
def is_reset_detected (status : Nat) : Bool := status &&& 0x0010 != 0

/-- `SHT30.is_command_failed`: `bool(status & 0x0002)`. -/
def is_command_failed (status : Nat) : Bool := status &&& 0x0002 != 0

/-- `SHT30.is_write_crc_error`: `bool(status & 0x0001)`. -/
def is_write_crc_error (status : Nat) : Bool := status &&& 0x0001 != 0

/-- The checksum-validation and decoding part of `SHT30.singleshot_measure`,
applied to the 6-byte response: CRC over `rdata[0:2]` checked against
`rdata[2]`, CRC over `rdata[3:5]` checked against `rdata[5]`; on success
the two big-endian raw values are returned. -/
def singleshot_measure (rdata : List Nat) : Except Unit (Nat × Nat) :=
  let crc_temp := crc8 (rdata.take 2)
  let crc_humi := crc8 ((rdata.drop 3).take 2)
  if crc_temp ≠ rdata.getD 2 0 ∨ crc_humi ≠ rdata.getD 5 0 then .error ()
  else .ok (from_bytes_be (rdata.take 2), from_bytes_be ((rdata.drop 3).take 2))

/-- `SHT30.temperature_C`.  Python `float` arithmetic is embedded as
exact rational arithmetic. -/
def temperature_C (raw_temp : Nat) : ℚ :=
  -45 + 175 * ((raw_temp : ℚ) / (2 ^ 16 - 1))

/-- `SHT30.temperature_F`. -/
def temperature_F (raw_temp : Nat) : ℚ :=
  -49 + 315 * ((raw_temp : ℚ) / (2 ^ 16 - 1))

/-- `SHT30.relative_humidity`. -/
def relative_humidity (raw_humi : Nat) : ℚ :=
  100 * ((raw_humi : ℚ) / (2 ^ 16 - 1))

lemma shiftLeft_one_and_255 (c : Nat) :
    (c <<< 1) &&& 255 = ((c &&& 255) <<< 1) &&& 255 := by
  apply Nat.eq_of_testBit_eq
  intro i
  simp only [Nat.testBit_and, Nat.testBit_shiftLeft,
    show (255 : Nat) = 2 ^ 8 - 1 by norm_num, Nat.testBit_two_pow_sub_one]
  by_cases h8 : i < 8
  · by_cases h1 : 1 ≤ i
    · have h18 : i - 1 < 8 := by omega
      simp [h8, h1, h18]
    · simp [h1]
  · simp [h8]

lemma crcStep_and_255 (c : Nat) : crcStep c &&& 255 = crcStepM (c &&& 255) := by
  unfold crcStep crcStepM
  have hcond : (c &&& 255) &&& 128 = c &&& 128 := by
    rw [Nat.and_assoc, show (255 : Nat) &&& 128 = 128 by decide]
  rw [hcond]
  by_cases h : c &&& 128 ≠ 0
  · rw [if_pos h, if_pos h]
    rw [Nat.and_xor_distrib_right, Nat.and_xor_distrib_right,
      shiftLeft_one_and_255]
  · rw [if_neg h, if_neg h]
    exact shiftLeft_one_and_255 c

lemma crcRounds_and_255 (n c : Nat) :
    crcRounds n c &&& 255 = crcRoundsM n (c &&& 255) := by
  induction n generalizing c with
  | zero => rfl
  | succ n ih =>
    show crcRounds n (crcStep c) &&& 255 = crcRoundsM n (crcStepM (c &&& 255))
    rw [ih, crcStep_and_255]

lemma xor_and_255 (c d : Nat) (hd : d < 256) :
    (c ^^^ d) &&& 255 = (c &&& 255) ^^^ d := by
  rw [Nat.and_xor_distrib_right]
  congr 1
  calc d &&& 255 = d &&& (2 ^ 8 - 1) := by norm_num
    _ = d := Nat.and_pow_two_sub_one_of_lt_two_pow (by norm_num at hd ⊢; omega)

lemma crc8_foldl_and_255 (l : List Nat) (c : Nat) (h : ∀ d ∈ l, d < 256) :
    (l.foldl (fun crc d => crcRounds 8 (crc ^^^ d)) c) &&& 255 =
      l.foldl (fun crc d => crcRoundsM 8 (crc ^^^ d)) (c &&& 255) := by
  induction l generalizing c with
  | nil => simp
  | cons d tl ih =>
    simp only [List.foldl_cons]
    rw [ih _ (fun x hx => h x (List.mem_cons_of_mem _ hx))]
    congr 1
    rw [crcRounds_and_255, xor_and_255 _ _ (h d (List.mem_cons_self _ _))]

/-- The unmasked source CRC agrees with the masked spec CRC on byte input. -/
lemma crc8_eq_crc8_spec (data : List Nat) (h : ∀ d ∈ data, d < 256) :
    crc8 data = crc8_spec data := by
  unfold crc8 crc8_spec
  have := crc8_foldl_and_255 data 0xFF h
  simpa using this

end SHT30

namespace SC18IM700

/-- `S_CHAR = b'S'`. -/
def S_CHAR : Nat := 0x53

/-- `P_CHAR = b'P'`. -/
def P_CHAR : Nat := 0x50

/-- `W_CHAR = b'W'`. -/
def W_CHAR : Nat := 0x57

/-- Register address `BRG0`. -/
def BRG0 : Nat := 0x00

/-- Register address `BRG1`. -/
def BRG1 : Nat := 0x01

/-- Register address `PORTCONF1`. -/
def PORTCONF1 : Nat := 0x02

/-- Register address `PORTCONF2`. -/
def PORTCONF2 : Nat := 0x03

/-- Register address `I2CADR`. -/
def I2CADR : Nat := 0x06

/-- `int.from_bytes(_, byteorder='little')`: little-endian decoding. -/
def from_bytes_le (data : List Nat) : Nat :=
  data.foldr (fun b acc => b + 256 * acc) 0

/-- `SC18IM700.i2c_read_addr`: validates the 7-bit address (the argument
is `Int` because the Python caller may pass a negative value) and
returns `(addr << 1) | 0x01`.  `.error ()` stands for the `ValueError`. -/
def i2c_read_addr (i2c_addr : Int) : Except Unit Nat :=
  if i2c_addr < 0x00 ∨ 0x7F < i2c_addr then .error ()
  else .ok ((i2c_addr.toNat <<< 1) ||| 0x01)

/-- `SC18IM700.i2c_write_addr`: validates the 7-bit address and returns
`(addr << 1) & 0xFE`. -/
def i2c_write_addr (i2c_addr : Int) : Except Unit Nat :=
  if i2c_addr < 0x00 ∨ 0x7F < i2c_addr then .error ()
  else .ok ((i2c_addr.toNat <<< 1) &&& 0xFE)

/-- `SC18IM700.read_i2c`: returns the transmitted frame trace (first
component, empty when validation fails before any transport write) and
the bytes read back, `none` standing for a raised error.  `rx` is the
byte stream the external serial transport would yield. -/
def read_i2c (i2c_addr size : Int) (rx : List Nat) :
    List Nat × Option (List Nat) :=
  match i2c_read_addr i2c_addr with
  | .error _ => ([], none)
  | .ok ra =>
    if size < 0x00 ∨ 0xFF < size then ([], none)
    else
      let tx := [S_CHAR, ra, size.toNat, P_CHAR]
      -- `self.read(size)` raises when the transport yields fewer bytes
      if rx.length < size.toNat then (tx, none)
      else (tx, some (rx.take size.toNat))

/-- `SC18IM700.write_i2c`: returns the transmitted frame trace (empty on
validation failure) and `some ()` when the call completes. -/
def write_i2c (i2c_addr : Int) (data : List Nat) :
    List Nat × Option Unit :=
  match i2c_write_addr i2c_addr with
  | .error _ => ([], none)
  | .ok wa =>
    if (data.length : Int) < 0x00 ∨ 0xFF < (data.length : Int) then ([], none)
    else ([S_CHAR, wa, data.length] ++ data ++ [P_CHAR], some ())

/-- `SC18IM700.write_reg`: frame `W` + `b''.join(bytes([r, d]) for r, d in
zip(reg_addr, data))` + `P`.  Note the source performs no length check:
`zip` silently truncates to the shorter list. -/
def write_reg (reg_addr data : List Nat) : List Nat :=
  W_CHAR :: ((reg_addr.zip data).map (fun rd => [rd.1, rd.2])).flatten ++ [P_CHAR]

/-- The address/value interleaving `a1 d1 a2 d2 ...`, truncated to the
shorter list, used to state what `write_reg` transmits. -/
def interleave : List Nat → List Nat → List Nat
  | [], _ => []
  | _ :: _, [] => []
  | a :: as, d :: ds => a :: d :: interleave as ds

/-- `int.to_bytes(2, byteorder='little')`: the two little-endian bytes
of a 16-bit value. -/
def to_bytes_2_le (x : Nat) : List Nat := [x % 256, x / 256 % 256]

/-- `SC18IM700.get_port_conf`, applied to the two bytes read back from
the `PORTCONF1`/`PORTCONF2` register pair: validate the port number and
extract its 2-bit field `(port_conf & (0b11 << 2*port)) >> 2*port`. -/
def get_port_conf (port b0 b1 : Nat) : Except Unit Nat :=
  if 7 < port then .error ()
  else .ok ((from_bytes_le [b0, b1] &&& (0b11 <<< (port * 2))) >>> (port * 2))

/-- `SC18IM700.set_port_conf`, applied to the two bytes read back from
`PORTCONF1`/`PORTCONF2`: validate port and value, then read-modify-write
`port_conf = (port_conf & ~mask) | (value << shift)` and write the result
back little-endian.  The register value read is two bytes, so Python's
infinite-precision `~mask` conjunction coincides with the 16-bit
complement `0xFFFF ^ mask` used here, and `int.to_bytes(2, 'little')`
cannot overflow. -/
def set_port_conf (port value b0 b1 : Nat) : Except Unit (List Nat) :=
  if 7 < port then .error ()
  else if 3 < value then .error ()
  else
    .ok (write_reg [PORTCONF1, PORTCONF2]
      (to_bytes_2_le ((from_bytes_le [b0, b1] &&&
        (0xFFFF ^^^ (0b11 <<< (port * 2)))) ||| (value <<< (port * 2)))))

/-- Python `int()` applied to a float value: truncation toward zero.
The float is embedded as an exact rational. -/
def pyInt (q : ℚ) : Int := if 0 ≤ q then ⌊q⌋ else ⌈q⌉

/-- The `SC18IM700.baudrate` property, applied to the two bytes read back
from the `BRG0`/`BRG1` register pair: decode the divisor little-endian
and return `int(7.3728e6 / (16 + brg))`. -/
def baudrate (b0 b1 : Nat) : Int :=
  pyInt (7372800 / (16 + (from_bytes_le [b0, b1] : ℚ)))

/-- `SC18IM700.change_baudrate`: computes `brg = int((7.3728e6 / value) - 16)`
and writes it little-endian to `BRG0`/`BRG1`.  `.error ()` covers the
Python `ZeroDivisionError` for `value = 0` and the `OverflowError` that
`int.to_bytes(2, 'little')` raises when `brg` is not a 16-bit value. -/
def change_baudrate (value : Nat) : Except Unit (List Nat) :=
  if value = 0 then .error ()
  else
    let brg : Int := pyInt ((7372800 : ℚ) / value - 16)
    if brg < 0 ∨ 65536 ≤ brg then .error ()
    else .ok (write_reg [BRG0, BRG1] [brg.toNat % 256, brg.toNat / 256 % 256])

/-- `SC18IM700.get_i2c_master_addr`, applied to the byte read back from
the `I2CADR` register: decode `(byte >> 1) & 0x7F`. -/
def get_i2c_master_addr (rbyte : Nat) : Nat :=
  (rbyte >>> 1) &&& 0x7F

/-- `SC18IM700.set_i2c_master_addr`: validate the 7-bit value, encode it
as `(value << 1) & 0xFE` and write that byte to `I2CADR`.  The returned
frame is the transmitted `write_reg` frame. -/
def set_i2c_master_addr (value : Nat) : Except Unit (List Nat) :=
  if 0x7F < value then .error ()
  else .ok (write_reg [I2CADR] [(value <<< 1) &&& 0xFE])

end SC18IM700

/-- C1: `crc8` implements the 8-bit CRC with polynomial `0x31`, initial
value `0xFF`, no reflection and no final XOR: on byte input it agrees
with the standard masked MSB-first CRC-8 fold, and the reference vector
holds: `crc8 [0xBE, 0xEF] = 0x92`. -/
theorem C1_crc8_algorithm :
    (∀ data : List Nat, (∀ d ∈ data, d < 256) →
      SHT30.crc8 data = SHT30.crc8_spec data) ∧
    SHT30.crc8 [0xBE, 0xEF] = 0x92 :=
  ⟨SHT30.crc8_eq_crc8_spec, by decide⟩

/-- Witness for C1 at the concrete byte list `[0x12, 0x34]`. -/
theorem C1_crc8_algorithm_witness :
    (∀ d ∈ [0x12, 0x34], d < 256) ∧
      SHT30.crc8 [0x12, 0x34] = SHT30.crc8_spec [0x12, 0x34] :=
  ⟨by decide, C1_crc8_algorithm.1 [0x12, 0x34] (by decide)⟩

/-- C2: on a 6-byte response, `singleshot_measure` raises `ChecksumError`
iff the CRC of bytes 1-2 differs from byte 3 or the CRC of bytes 4-5
differs from byte 6 (each pair validated independently), and when both
checksums match it returns the two raw big-endian 16-bit values. -/
theorem C2_singleshot_checksum :
    ∀ b0 b1 b2 b3 b4 b5 : Nat,
      (SHT30.singleshot_measure [b0, b1, b2, b3, b4, b5] = .error () ↔
        (SHT30.crc8 [b0, b1] ≠ b2 ∨ SHT30.crc8 [b3, b4] ≠ b5)) ∧
      (SHT30.crc8 [b0, b1] = b2 → SHT30.crc8 [b3, b4] = b5 →
        SHT30.singleshot_measure [b0, b1, b2, b3, b4, b5] =
          .ok (256 * b0 + b1, 256 * b3 + b4)) := by
  intro b0 b1 b2 b3 b4 b5
  simp only [SHT30.singleshot_measure, SHT30.from_bytes_be, List.take_succ_cons,
    List.take_zero, List.drop_succ_cons, List.drop_zero, List.getD_cons_succ,
    List.getD_cons_zero, List.foldl_cons, List.foldl_nil]
  constructor
  · split_ifs with h
    · simpa using h
    · push_neg at h
      simp [h]
  · intro h1 h2
    rw [if_neg (by simp [h1, h2])]
    norm_num

/-- Witness for C2: a response whose two checksums are both correct is
accepted and decoded. -/
theorem C2_singleshot_checksum_witness :
    SHT30.singleshot_measure [0xBE, 0xEF, 0x92, 0xBE, 0xEF, 0x92] =
      .ok (0xBEEF, 0xBEEF) :=
  (C2_singleshot_checksum 0xBE 0xEF 0x92 0xBE 0xEF 0x92).2 (by decide) (by decide)

/-- C3: on a 3-byte response, `read_status` raises `ChecksumError` exactly
when the CRC of the two status bytes differs from the third byte, and
otherwise decodes the big-endian status word; status bytes `0x80 0x10`
with a correct checksum give `isAlerting` and `isResetDetected` true and
all five other flags false (masks 0x8000, 0x2000, 0x0800, 0x0400,
0x0010, 0x0002, 0x0001). -/
theorem C3_read_status_flags :
    (∀ b0 b1 b2 : Nat,
      (SHT30.read_status [b0, b1, b2] = .error () ↔ SHT30.crc8 [b0, b1] ≠ b2) ∧
      (SHT30.crc8 [b0, b1] = b2 →
        SHT30.read_status [b0, b1, b2] = .ok (256 * b0 + b1))) ∧
    SHT30.read_status [0x80, 0x10, SHT30.crc8 [0x80, 0x10]] = .ok 0x8010 ∧
    SHT30.is_alerting 0x8010 = true ∧
    SHT30.is_reset_detected 0x8010 = true ∧
    SHT30.heater_enabled 0x8010 = false ∧
    SHT30.is_humi_alerting 0x8010 = false ∧
    SHT30.is_temp_alerting 0x8010 = false ∧
    SHT30.is_command_failed 0x8010 = false ∧
    SHT30.is_write_crc_error 0x8010 = false := by
  refine ⟨?_, by rfl, by rfl, by rfl, by rfl, by rfl, by rfl, by rfl, by rfl⟩
  intro b0 b1 b2
  simp only [SHT30.read_status, SHT30.from_bytes_be, List.take_succ_cons,
    List.take_zero, List.getD_cons_succ, List.getD_cons_zero, List.foldl_cons,
    List.foldl_nil]
  constructor
  · split_ifs with h
    · simpa using h
    · push_neg at h
      simp [h]
  · intro h1
    rw [if_neg (by simp [h1])]
    norm_num

/-- Witness for C3: the success branch at a concrete matching checksum. -/
theorem C3_read_status_flags_witness :
    SHT30.read_status [0x80, 0x10, 0xE1] = .ok 0x8010 :=
  (C3_read_status_flags.1 0x80 0x10 0xE1).2 (by decide)

/-- C9: the unit conversions are the pure linear rescalings stated by the
spec, and the endpoint values are exact: `temperatureC 0 = -45`,
`temperatureC 65535 = 130`, `relativeHumidity 0 = 0`,
`relativeHumidity 65535 = 100`. -/
theorem C9_unit_conversions :
    SHT30.temperature_C 0 = -45 ∧
    SHT30.temperature_C 65535 = 130 ∧
    SHT30.relative_humidity 0 = 0 ∧
    SHT30.relative_humidity 65535 = 100 ∧
    (∀ raw : Nat,
      SHT30.temperature_C raw = -45 + 175 * ((raw : ℚ) / 65535) ∧
      SHT30.temperature_F raw = -49 + 315 * ((raw : ℚ) / 65535) ∧
      SHT30.relative_humidity raw = 100 * ((raw : ℚ) / 65535)) := by
  refine ⟨?_, ?_, ?_, ?_, fun raw => ⟨?_, ?_, ?_⟩⟩ <;>
    norm_num [SHT30.temperature_C, SHT30.temperature_F, SHT30.relative_humidity]

/-- C4: on the 7-bit range the address accessors compute
`(addr << 1) | 1` and `(addr << 1) & 0xFE`; outside it they raise
`ValidationError`; and `read_i2c`/`write_i2c` reject an out-of-range
address or size with an empty transmitted-frame trace. -/
theorem C4_address_validation :
    (∀ a : Int, 0 ≤ a → a ≤ 0x7F →
      SC18IM700.i2c_read_addr a = .ok ((a.toNat <<< 1) ||| 0x01) ∧
      SC18IM700.i2c_write_addr a = .ok ((a.toNat <<< 1) &&& 0xFE)) ∧
    (∀ a : Int, a < 0 ∨ 0x7F < a →
      SC18IM700.i2c_read_addr a = .error () ∧
      SC18IM700.i2c_write_addr a = .error ()) ∧
    (∀ a s : Int, ∀ rx : List Nat, a < 0 ∨ 0x7F < a ∨ s < 0 ∨ 0xFF < s →
      SC18IM700.read_i2c a s rx = ([], none)) ∧
    (∀ a : Int, ∀ d : List Nat, a < 0 ∨ 0x7F < a ∨ 0xFF < (d.length : Int) →
      SC18IM700.write_i2c a d = ([], none)) := by
  refine ⟨fun a h0 h7 => ?_, fun a h => ?_, fun a s rx h => ?_, fun a d h => ?_⟩
  · constructor
    · unfold SC18IM700.i2c_read_addr
      rw [if_neg (by omega)]
    · unfold SC18IM700.i2c_write_addr
      rw [if_neg (by omega)]
  · constructor
    · unfold SC18IM700.i2c_read_addr
      rw [if_pos h]
    · unfold SC18IM700.i2c_write_addr
      rw [if_pos h]
  · by_cases ha : a < 0 ∨ 0x7F < a
    · simp [SC18IM700.read_i2c, SC18IM700.i2c_read_addr, if_pos ha]
    · have hs : s < 0 ∨ 0xFF < s := by
        rcases h with h | h | h | h
        · exact absurd (Or.inl h) ha
        · exact absurd (Or.inr h) ha
        · exact Or.inl h
        · exact Or.inr h
      simp [SC18IM700.read_i2c, SC18IM700.i2c_read_addr, if_neg ha, if_pos hs]
  · by_cases ha : a < 0 ∨ 0x7F < a
    · simp [SC18IM700.write_i2c, SC18IM700.i2c_write_addr, if_pos ha]
    · have hs : 255 < d.length := by
        rcases h with h | h | h
        · exact absurd (Or.inl h) ha
        · exact absurd (Or.inr h) ha
        · exact_mod_cast h
      simp [SC18IM700.write_i2c, SC18IM700.i2c_write_addr, if_neg ha, hs]

/-- Witness for C4 at concrete addresses and sizes. -/
theorem C4_address_validation_witness :
    SC18IM700.i2c_read_addr 0x44 = .ok 0x89 ∧
    SC18IM700.i2c_write_addr 0x44 = .ok 0x88 ∧
    SC18IM700.i2c_read_addr 0x80 = .error () ∧
    SC18IM700.read_i2c (-1) 3 [] = ([], none) ∧
    SC18IM700.write_i2c 0x80 [0x30] = ([], none) :=
  ⟨(C4_address_validation.1 0x44 (by norm_num) (by norm_num)).1,
   (C4_address_validation.1 0x44 (by norm_num) (by norm_num)).2,
   (C4_address_validation.2.1 0x80 (by norm_num)).1,
   C4_address_validation.2.2.1 (-1) 3 [] (by norm_num),
   C4_address_validation.2.2.2 0x80 [0x30] (by norm_num)⟩

lemma interleave_eq_zip_join (ra d : List Nat) :
    ((ra.zip d).map (fun rd => [rd.1, rd.2])).flatten = SC18IM700.interleave ra d := by
  induction ra generalizing d with
  | nil => simp [SC18IM700.interleave]
  | cons a as ih =>
    cases d with
    | nil => simp [SC18IM700.interleave]
    | cons b bs => simp [SC18IM700.interleave, ih]

lemma interleave_take_append (ra d extra : List Nat) (h : ra.length = d.length) :
    SC18IM700.interleave ra (d ++ extra) = SC18IM700.interleave ra d := by
  induction ra generalizing d with
  | nil => simp [SC18IM700.interleave]
  | cons a as ih =>
    cases d with
    | nil => simp at h
    | cons b bs =>
      simp only [List.cons_append, SC18IM700.interleave]
      exact congrArg (fun l => a :: b :: l) (ih bs (by simpa using h))

/-- C6 counterexample: `write_reg` performs no length check.  With
`addrList = [0x00]` and the longer `dataList = [0x55, 0x66]` the call
completes and transmits exactly the same complete `W 00 55 P` frame as
the equal-length call with `dataList = [0x55]` — a normal full write of
every requested register, contradicting the claim that unequal-length
calls do not complete as a normal full write. -/
theorem C6_counterexample :
    SC18IM700.write_reg [0x00] [0x55, 0x66] = [0x57, 0x00, 0x55, 0x50] ∧
    SC18IM700.write_reg [0x00] [0x55] = [0x57, 0x00, 0x55, 0x50] :=
  ⟨rfl, rfl⟩

/-- C6 amended: `write_reg` does not require equal-length lists; it
always transmits `W` followed by the zip of the two lists truncated to
the shorter one, each register address immediately followed by its value
byte, then `P`, with no readback; for equal-length lists this is exactly
the claimed frame, and extra trailing data bytes are silently ignored. -/
theorem C6_write_reg_frame :
    (∀ ra d : List Nat, SC18IM700.write_reg ra d =
      0x57 :: SC18IM700.interleave ra d ++ [0x50]) ∧
    (∀ ra d extra : List Nat, ra.length = d.length →
      SC18IM700.write_reg ra (d ++ extra) = SC18IM700.write_reg ra d) := by
  constructor
  · intro ra d
    unfold SC18IM700.write_reg
    rw [interleave_eq_zip_join]
    rfl
  · intro ra d extra h
    unfold SC18IM700.write_reg
    rw [interleave_eq_zip_join, interleave_eq_zip_join,
      interleave_take_append ra d extra h]

/-- Witness for C6: the equal-length hypothesis discharged concretely. -/
theorem C6_write_reg_frame_witness :
    SC18IM700.write_reg [0x02, 0x03] ([0x0A, 0x14] ++ [0x1E]) =
      SC18IM700.write_reg [0x02, 0x03] [0x0A, 0x14] :=
  C6_write_reg_frame.2 [0x02, 0x03] [0x0A, 0x14] [0x1E] (by decide)

lemma master_addr_decode_encode : ∀ v : Nat, v ≤ 0x7F →
    SC18IM700.get_i2c_master_addr ((v <<< 1) &&& 0xFE) = v := by decide

/-- C10: the I2C master address accessors are mutually inverse on the
valid range: for `v ≤ 0x7F`, `set_i2c_master_addr` writes the byte
`(v << 1) & 0xFE` to `I2CADR`, and `get_i2c_master_addr` decodes that
byte back to exactly `v`. -/
theorem C10_master_addr_roundtrip :
    ∀ v : Nat, v ≤ 0x7F →
      SC18IM700.set_i2c_master_addr v =
        .ok [0x57, 0x06, (v <<< 1) &&& 0xFE, 0x50] ∧
      SC18IM700.get_i2c_master_addr ((v <<< 1) &&& 0xFE) = v := by
  intro v hv
  constructor
  · unfold SC18IM700.set_i2c_master_addr
    rw [if_neg (by omega)]
    rfl
  · exact master_addr_decode_encode v hv

/-- Witness for C10 at `v = 0x44`. -/
theorem C10_master_addr_roundtrip_witness :
    SC18IM700.set_i2c_master_addr 0x44 = .ok [0x57, 0x06, 0x88, 0x50] ∧
    SC18IM700.get_i2c_master_addr 0x88 = 0x44 :=
  C10_master_addr_roundtrip 0x44 (by norm_num)

/-- C5 counterexample: at baud 131 the quotient is `7372800/131 ≈ 56280.916`,
so the claimed divisor `round(7372800/131) - 16 = 56265`, but the code's
`int((7.3728e6/131) - 16)` truncates and writes 56264 (little-endian
`C8 DB`): the transmitted divisor differs from the claimed one. -/
theorem C5_counterexample :
    SC18IM700.change_baudrate 131 = .ok [0x57, 0x00, 0xC8, 0x01, 0xDB, 0x50] ∧
    ((0xC8 : Int) + 256 * 0xDB ≠ round ((7372800 : ℚ) / 131) - 16) := by
  constructor
  · have hq : SC18IM700.pyInt ((7372800 : ℚ) / (131 : Nat) - 16) = 56264 := by
      unfold SC18IM700.pyInt
      rw [if_pos (by norm_num)]
      norm_num
    unfold SC18IM700.change_baudrate
    rw [if_neg (by norm_num)]
    simp only [hq]
    rw [if_neg (by norm_num)]
    rfl
  · have h : round ((7372800 : ℚ) / 131) = 56281 := by norm_num [round_eq]
    rw [h]
    norm_num

/-- C5 amended: the setter's divisor is the truncation
`⌊7372800 / baud⌋ - 16` (Python `int()` of the float quotient), not
`round(7372800 / baud) - 16`; it is written little-endian to the
`BRG0`/`BRG1` pair, and the getter decodes the little-endian divisor and
returns the truncation `⌊7372800 / (16 + divisor)⌋`. -/
theorem C5_baudrate_divisor :
    (∀ value : Nat, 0 < value →
      ∀ brg : Int, brg = ⌊(7372800 : ℚ) / value⌋ - 16 →
      0 ≤ brg → brg < 65536 →
      SC18IM700.change_baudrate value =
        .ok [0x57, 0x00, brg.toNat % 256, 0x01, brg.toNat / 256 % 256, 0x50]) ∧
    (∀ b0 b1 : Nat,
      SC18IM700.baudrate b0 b1 = ⌊(7372800 : ℚ) / (16 + b0 + 256 * b1)⌋) := by
  constructor
  · intro value hpos brg hbrg h0 h16
    have hfl : ⌊(7372800 : ℚ) / value - 16⌋ = brg := by
      rw [hbrg, show (16 : ℚ) = ((16 : ℤ) : ℚ) by norm_num, Int.floor_sub_int]
    have hge : (0 : ℚ) ≤ (7372800 : ℚ) / value - 16 := by
      by_contra hneg
      push_neg at hneg
      have hlt : ⌊(7372800 : ℚ) / value - 16⌋ < 0 := by
        apply Int.floor_lt.2
        push_cast
        linarith
      omega
    have hpy : SC18IM700.pyInt ((7372800 : ℚ) / value - 16) = brg := by
      unfold SC18IM700.pyInt
      rw [if_pos hge, hfl]
    unfold SC18IM700.change_baudrate
    rw [if_neg (by omega)]
    simp only [hpy]
    rw [if_neg (by omega)]
    rfl
  · intro b0 b1
    unfold SC18IM700.baudrate SC18IM700.pyInt SC18IM700.from_bytes_le
    rw [if_pos (by positivity)]
    norm_num
    ring_nf

/-- Witness for C5 at baud 9600: divisor `⌊7372800/9600⌋ - 16 = 752`
(`F0 02` little-endian), and the getter decodes that pair back to 9600. -/
theorem C5_baudrate_divisor_witness :
    SC18IM700.change_baudrate 9600 = .ok [0x57, 0x00, 0xF0, 0x01, 0x02, 0x50] ∧
    SC18IM700.baudrate 0xF0 0x02 = 9600 :=
  ⟨C5_baudrate_divisor.1 9600 (by norm_num) 752 (by norm_num) (by norm_num)
    (by norm_num),
   (C5_baudrate_divisor.2 0xF0 0x02).trans (by norm_num)⟩

lemma testBit_three (j : Nat) : Nat.testBit 3 j = decide (j < 2) := by
  rw [show (3 : Nat) = 2 ^ 2 - 1 by norm_num, Nat.testBit_two_pow_sub_one]

/-- Bit `i` of the masked-update value written by `set_port_conf`: inside
the target 2-bit field it is the corresponding bit of `value`, everywhere
else (below bit 16) it is the corresponding bit of the old register. -/
lemma set_port_conf_testBit (old v p i : Nat) (hv : v ≤ 3) (hi : i < 16) :
    ((old &&& (0xFFFF ^^^ (3 <<< (p * 2)))) ||| (v <<< (p * 2))).testBit i
      = if p * 2 ≤ i ∧ i < p * 2 + 2 then v.testBit (i - p * 2)
        else old.testBit i := by
  simp only [Nat.testBit_or, Nat.testBit_and, Nat.testBit_xor,
    Nat.testBit_shiftLeft, testBit_three,
    show (0xFFFF : Nat) = 2 ^ 16 - 1 by norm_num, Nat.testBit_two_pow_sub_one]
  by_cases hin : p * 2 ≤ i ∧ i < p * 2 + 2
  · rw [if_pos hin]
    have h1 : decide (i < 16) = true := by simp [hi]
    have h2 : decide (p * 2 ≤ i) = true := by simp [hin.1]
    have h3 : decide (i - p * 2 < 2) = true := by
      simp only [decide_eq_true_eq]
      omega
    simp [h1, h2, h3]
  · rw [if_neg hin]
    by_cases hle : p * 2 ≤ i
    · have h3 : decide (i - p * 2 < 2) = false := by
        simp only [decide_eq_false_iff_not]
        omega
      have hv4 : v < 2 ^ (i - p * 2) :=
        lt_of_lt_of_le (by omega : v < 2 ^ 2)
          (Nat.pow_le_pow_right (by norm_num) (by omega))
      have hvb : v.testBit (i - p * 2) = false := Nat.testBit_lt_two_pow hv4
      simp [h3, hvb, hi]
    · have h2 : decide (p * 2 ≤ i) = false := by
        simp only [decide_eq_false_iff_not]
        omega
      simp [h2, hi]

/-- Extracting a field by masking then shifting equals shifting then
masking. -/
lemma and_mask_shiftRight (x s : Nat) :
    (x &&& (3 <<< s)) >>> s = (x >>> s) &&& 3 := by
  apply Nat.eq_of_testBit_eq
  intro i
  simp only [Nat.testBit_shiftRight, Nat.testBit_and, Nat.testBit_shiftLeft,
    testBit_three, Nat.add_sub_cancel_left]
  simp [Nat.le_add_right]

/-- A 2-bit field is determined by its two bits. -/
lemma two_bit_field_eq (x y s t : Nat) (hx0 : x.testBit s = y.testBit t)
    (hx1 : x.testBit (s + 1) = y.testBit (t + 1)) :
    (x >>> s) &&& 3 = (y >>> t) &&& 3 := by
  have e : ∀ z u : Nat, (z >>> u) &&& 3 =
      (Nat.testBit z u).toNat + 2 * (Nat.testBit z (u + 1)).toNat := by
    intro z u
    rw [show (3 : Nat) = 2 ^ 2 - 1 by norm_num, Nat.and_pow_two_sub_one_eq_mod,
      Nat.shiftRight_eq_div_pow, Nat.testBit_to_div_mod, Nat.testBit_to_div_mod]
    have h2 : z / 2 ^ (u + 1) = z / 2 ^ u / 2 := by
      rw [Nat.pow_succ, Nat.div_div_eq_div_mul]
    rw [h2]
    rcases Nat.mod_two_eq_zero_or_one (z / 2 ^ u) with h | h <;>
      rcases Nat.mod_two_eq_zero_or_one (z / 2 ^ u / 2) with h2 | h2 <;>
        simp [h, h2] <;> omega
  rw [e x s, e y t, hx0, hx1]

lemma from_to_bytes_2_le (x : Nat) (hx : x < 65536) :
    SC18IM700.from_bytes_le (SC18IM700.to_bytes_2_le x) = x := by
  simp only [SC18IM700.to_bytes_2_le, SC18IM700.from_bytes_le, List.foldr]
  omega

/-- C7: `set_port_conf` is a correct read-modify-write of the two-byte
port-configuration register: in the 16-bit value it writes back, port
`p`'s 2-bit field equals the new value and every other port's field
equals its field in the register contents that were read. -/
theorem C7_set_port_conf_rmw :
    ∀ port value b0 b1 : Nat, port ≤ 7 → value ≤ 3 → b0 < 256 → b1 < 256 →
      ∃ lo hi : Nat, lo < 256 ∧ hi < 256 ∧
        SC18IM700.set_port_conf port value b0 b1 =
          .ok [0x57, 0x02, lo, 0x03, hi, 0x50] ∧
        SC18IM700.get_port_conf port lo hi = .ok value ∧
        (∀ q : Nat, q ≤ 7 → q ≠ port →
          SC18IM700.get_port_conf q lo hi = SC18IM700.get_port_conf q b0 b1) := by
  intro p v b0 b1 hp hv h0 h1
  obtain ⟨pc, hpcdef⟩ : ∃ pc, pc = (SC18IM700.from_bytes_le [b0, b1] &&&
      (0xFFFF ^^^ (0b11 <<< (p * 2)))) ||| (v <<< (p * 2)) := ⟨_, rfl⟩
  have holdlt : SC18IM700.from_bytes_le [b0, b1] < 65536 := by
    simp only [SC18IM700.from_bytes_le, List.foldr]
    omega
  have hpclt : pc < 65536 := by
    rw [hpcdef]
    have hl : SC18IM700.from_bytes_le [b0, b1] &&&
        (0xFFFF ^^^ (3 <<< (p * 2))) < 2 ^ 16 :=
      lt_of_le_of_lt Nat.and_le_left (by norm_num at holdlt ⊢; omega)
    have hr : v <<< (p * 2) < 2 ^ 16 := by
      rw [Nat.shiftLeft_eq]
      calc v * 2 ^ (p * 2) ≤ 3 * 2 ^ 14 := by
            apply Nat.mul_le_mul hv
            exact Nat.pow_le_pow_right (by norm_num) (by omega)
        _ < 2 ^ 16 := by norm_num
    have := Nat.or_lt_two_pow hl hr
    norm_num at this ⊢
    omega
  refine ⟨pc % 256, pc / 256 % 256, Nat.mod_lt _ (by norm_num),
    Nat.mod_lt _ (by norm_num), ?_, ?_, ?_⟩
  · unfold SC18IM700.set_port_conf
    rw [if_neg (by omega), if_neg (by omega), ← hpcdef]
    rfl
  · unfold SC18IM700.get_port_conf
    rw [if_neg (by omega)]
    rw [show ([pc % 256, pc / 256 % 256] : List Nat) =
      SC18IM700.to_bytes_2_le pc from rfl]
    rw [from_to_bytes_2_le _ hpclt, and_mask_shiftRight]
    congr 1
    have e0 : pc.testBit (p * 2) = v.testBit 0 := by
      rw [hpcdef, set_port_conf_testBit _ _ _ _ hv (by omega),
        if_pos ⟨Nat.le_refl _, by omega⟩, Nat.sub_self]
    have e1 : pc.testBit (p * 2 + 1) = v.testBit 1 := by
      rw [hpcdef, set_port_conf_testBit _ _ _ _ hv (by omega),
        if_pos ⟨by omega, by omega⟩, show p * 2 + 1 - p * 2 = 1 by omega]
    rw [two_bit_field_eq _ v _ 0 e0 e1, Nat.shiftRight_zero,
      show (3 : Nat) = 2 ^ 2 - 1 by norm_num,
      Nat.and_pow_two_sub_one_of_lt_two_pow (by omega)]
  · intro q hq hqp
    unfold SC18IM700.get_port_conf
    rw [if_neg (by omega), if_neg (by omega)]
    rw [show ([pc % 256, pc / 256 % 256] : List Nat) =
      SC18IM700.to_bytes_2_le pc from rfl]
    rw [from_to_bytes_2_le _ hpclt, and_mask_shiftRight, and_mask_shiftRight]
    congr 1
    have e0 : pc.testBit (q * 2) =
        (SC18IM700.from_bytes_le [b0, b1]).testBit (q * 2) := by
      rw [hpcdef, set_port_conf_testBit _ _ _ _ hv (by omega),
        if_neg (by omega)]
    have e1 : pc.testBit (q * 2 + 1) =
        (SC18IM700.from_bytes_le [b0, b1]).testBit (q * 2 + 1) := by
      rw [hpcdef, set_port_conf_testBit _ _ _ _ hv (by omega),
        if_neg (by omega)]
    exact two_bit_field_eq _ _ _ _ e0 e1

/-- Witness for C7: setting port 3 to value 2 on register contents
`0x55 0xAA` leaves every other port's field unchanged. -/
theorem C7_set_port_conf_rmw_witness :
    ∃ lo hi : Nat, lo < 256 ∧ hi < 256 ∧
      SC18IM700.set_port_conf 3 2 0x55 0xAA =
        .ok [0x57, 0x02, lo, 0x03, hi, 0x50] ∧
      SC18IM700.get_port_conf 3 lo hi = .ok 2 ∧
      (∀ q : Nat, q ≤ 7 → q ≠ 3 →
        SC18IM700.get_port_conf q lo hi = SC18IM700.get_port_conf q 0x55 0xAA) :=
  C7_set_port_conf_rmw 3 2 0x55 0xAA (by norm_num) (by norm_num) (by norm_num)
    (by norm_num)

lemma and_128_testBit (x : Nat) : (x &&& 128 ≠ 0) ↔ x.testBit 7 = true := by
  rw [show (128 : Nat) = 2 ^ 7 by norm_num, Nat.and_two_pow]
  cases h : x.testBit 7 <;> simp [h]

lemma xor_cancel_pair (a b c : Nat) : (a ^^^ c) ^^^ (b ^^^ c) = a ^^^ b := by
  apply Nat.eq_of_testBit_eq
  intro i
  simp only [Nat.testBit_xor]
  cases a.testBit i <;> cases b.testBit i <;> cases c.testBit i <;> simp

lemma xor_move (a b c : Nat) : (a ^^^ c) ^^^ b = (a ^^^ b) ^^^ c := by
  apply Nat.eq_of_testBit_eq
  intro i
  simp only [Nat.testBit_xor]
  cases a.testBit i <;> cases b.testBit i <;> cases c.testBit i <;> simp

/-- One masked CRC round, rewritten as a left shift plus a conditional
polynomial XOR keyed on bit 7. -/
lemma crcStepM_eq (x : Nat) :
    SHT30.crcStepM x = ((x <<< 1) &&& 255) ^^^ (if x.testBit 7 then 49 else 0) := by
  unfold SHT30.crcStepM
  by_cases h : x.testBit 7
  · rw [if_pos ((and_128_testBit x).2 h), if_pos h, Nat.and_xor_distrib_right,
      show (49 : Nat) &&& 255 = 49 by decide]
  · have h' : ¬(x &&& 128 ≠ 0) := fun hc => h ((and_128_testBit x).1 hc)
    rw [if_neg h', if_neg h, Nat.xor_zero]

lemma shl1_and_255_xor (x y : Nat) :
    ((x ^^^ y) <<< 1) &&& 255 = ((x <<< 1) &&& 255) ^^^ ((y <<< 1) &&& 255) := by
  apply Nat.eq_of_testBit_eq
  intro i
  simp only [Nat.testBit_and, Nat.testBit_shiftLeft, Nat.testBit_xor,
    show (255 : Nat) = 2 ^ 8 - 1 by norm_num, Nat.testBit_two_pow_sub_one]
  cases x.testBit (i - 1) <;> cases y.testBit (i - 1) <;>
    cases decide (1 ≤ i) <;> cases decide (i < 8) <;> simp

/-- The masked CRC round is GF(2)-linear. -/
lemma crcStepM_linear (x y : Nat) :
    SHT30.crcStepM (x ^^^ y) = SHT30.crcStepM x ^^^ SHT30.crcStepM y := by
  rw [crcStepM_eq, crcStepM_eq, crcStepM_eq, Nat.testBit_xor, shl1_and_255_xor]
  cases hx : x.testBit 7 <;> cases hy : y.testBit 7 <;> simp [hx, hy]
  · rw [Nat.xor_assoc]
  · rw [xor_move]
  · rw [← xor_cancel_pair ((x <<< 1) &&& 255) ((y <<< 1) &&& 255) 49]

lemma crcRoundsM_linear (n x y : Nat) :
    SHT30.crcRoundsM n (x ^^^ y) =
      SHT30.crcRoundsM n x ^^^ SHT30.crcRoundsM n y := by
  induction n generalizing x y with
  | zero => rfl
  | succ n ih =>
    show SHT30.crcRoundsM n (SHT30.crcStepM (x ^^^ y)) = _
    rw [crcStepM_linear, ih]
    rfl

lemma crcStepM_lt (x : Nat) : SHT30.crcStepM x < 256 := by
  unfold SHT30.crcStepM
  rw [show (255 : Nat) = 2 ^ 8 - 1 by norm_num, Nat.and_pow_two_sub_one_eq_mod]
  exact Nat.mod_lt _ (by norm_num)

lemma crcRoundsM_lt (n x : Nat) (hx : x < 256) : SHT30.crcRoundsM n x < 256 := by
  induction n generalizing x with
  | zero => exact hx
  | succ n ih => exact ih _ (crcStepM_lt x)

lemma crcRoundsM8_lt (x : Nat) : SHT30.crcRoundsM 8 x < 256 :=
  crcRoundsM_lt 7 _ (crcStepM_lt x)

set_option maxRecDepth 10000 in
lemma crcRoundsM8_fixed :
    ∀ d : Nat, d < 256 → (SHT30.crcRoundsM 8 d = d ↔ (d = 0 ∨ d = 0xEF)) := by
  decide

set_option maxRecDepth 10000 in
lemma crcRoundsM8_zero_only :
    ∀ d : Nat, d < 256 → SHT30.crcRoundsM 8 d = 0 → d = 0 := by
  decide

/-- The XOR of the two-byte CRCs in the two argument orders collapses,
by linearity, to the round function applied to `R d ^^^ d` with
`d = a ^^^ b`. -/
lemma crc8_spec_pair_xor (a b : Nat) :
    SHT30.crc8_spec [a, b] ^^^ SHT30.crc8_spec [b, a] =
      SHT30.crcRoundsM 8 (SHT30.crcRoundsM 8 (a ^^^ b) ^^^ (a ^^^ b)) := by
  show SHT30.crcRoundsM 8 (SHT30.crcRoundsM 8 (255 ^^^ a) ^^^ b) ^^^
      SHT30.crcRoundsM 8 (SHT30.crcRoundsM 8 (255 ^^^ b) ^^^ a) = _
  simp only [crcRoundsM_linear]
  apply Nat.eq_of_testBit_eq
  intro i
  simp only [Nat.testBit_xor]
  generalize (SHT30.crcRoundsM 8 (SHT30.crcRoundsM 8 255)).testBit i = c
  generalize (SHT30.crcRoundsM 8 (SHT30.crcRoundsM 8 a)).testBit i = p
  generalize (SHT30.crcRoundsM 8 (SHT30.crcRoundsM 8 b)).testBit i = q
  generalize (SHT30.crcRoundsM 8 a).testBit i = s
  generalize (SHT30.crcRoundsM 8 b).testBit i = r
  revert c p q s r
  decide

/-- C8 counterexample: the bytes `0x00` and `0xEF` are distinct but give
the same CRC in both orders — `0xEF` is a fixed point of the CRC round
map, so any pair with `a ^ b = 0xEF` collides. -/
theorem C8_counterexample :
    (0x00 : Nat) ≠ 0xEF ∧ SHT30.crc8 [0x00, 0xEF] = SHT30.crc8 [0xEF, 0x00] :=
  ⟨by decide, by decide⟩

/-- C8 amended: for distinct bytes `a ≠ b`, swapping the two input bytes
changes the CRC except exactly when `a ^^^ b = 0xEF`, in which case the
two orders always collide. -/
theorem C8_crc8_order_sensitivity :
    ∀ a b : Nat, a < 256 → b < 256 → a ≠ b →
      (SHT30.crc8 [a, b] = SHT30.crc8 [b, a] ↔ a ^^^ b = 0xEF) := by
  intro a b ha hb hab
  have hmem1 : ∀ d ∈ [a, b], d < 256 := by
    intro d hd
    rcases List.mem_pair.1 hd with h | h <;> subst h <;> assumption
  have hmem2 : ∀ d ∈ [b, a], d < 256 := by
    intro d hd
    rcases List.mem_pair.1 hd with h | h <;> subst h <;> assumption
  rw [SHT30.crc8_eq_crc8_spec [a, b] hmem1, SHT30.crc8_eq_crc8_spec [b, a] hmem2]
  have ha8 : a < 2 ^ 8 := by norm_num; omega
  have hb8 : b < 2 ^ 8 := by norm_num; omega
  have hd : a ^^^ b < 256 := by
    have := Nat.xor_lt_two_pow ha8 hb8
    norm_num at this
    exact this
  constructor
  · intro heq
    have h0 : SHT30.crc8_spec [a, b] ^^^ SHT30.crc8_spec [b, a] = 0 := by
      rw [heq, Nat.xor_self]
    rw [crc8_spec_pair_xor] at h0
    have hR8 : SHT30.crcRoundsM 8 (a ^^^ b) < 2 ^ 8 := by
      have := crcRoundsM8_lt (a ^^^ b)
      norm_num
      omega
    have hd8 : a ^^^ b < 2 ^ 8 := by norm_num; omega
    have hzlt : SHT30.crcRoundsM 8 (a ^^^ b) ^^^ (a ^^^ b) < 256 := by
      have := Nat.xor_lt_two_pow hR8 hd8
      norm_num at this
      exact this
    have h1 : SHT30.crcRoundsM 8 (a ^^^ b) ^^^ (a ^^^ b) = 0 :=
      crcRoundsM8_zero_only _ hzlt h0
    have h2 : SHT30.crcRoundsM 8 (a ^^^ b) = a ^^^ b := Nat.xor_eq_zero.1 h1
    rcases (crcRoundsM8_fixed _ hd).1 h2 with h3 | h3
    · exact absurd (Nat.xor_eq_zero.1 h3) hab
    · exact h3
  · intro h239
    have h2 : SHT30.crcRoundsM 8 (a ^^^ b) = a ^^^ b :=
      (crcRoundsM8_fixed _ hd).2 (Or.inr h239)
    have h0 : SHT30.crc8_spec [a, b] ^^^ SHT30.crc8_spec [b, a] = 0 := by
      rw [crc8_spec_pair_xor, h2, Nat.xor_self]
      rfl
    exact Nat.xor_eq_zero.1 h0

/-- Witness for C8 at the concrete bytes 1 and 2 (which do not collide). -/
theorem C8_crc8_order_sensitivity_witness :
    (1 : Nat) < 256 ∧ (2 : Nat) < 256 ∧ (1 : Nat) ≠ 2 ∧
      (SHT30.crc8 [1, 2] = SHT30.crc8 [2, 1] ↔ (1 : Nat) ^^^ 2 = 0xEF) :=
  ⟨by norm_num, by norm_num, by norm_num,
    C8_crc8_order_sensitivity 1 2 (by norm_num) (by norm_num) (by norm_num)⟩
